import Mathlib

/-!
Verification of the TrueTouch BLE UART command protocol.

Shallow embedding of src/arduino/util.hpp, src/arduino/truetouch.hpp and
src/arduino/truetouch.cpp.  The device state (UART buffer, pulse-scheduler
fields, pin output levels) is modelled explicitly; `service` is the per-tick
entry point, composed of `service_gpio_pulse` and the command dispatcher.
Pin writes and handler invocations are recorded as an event trace.
Machine integers are modelled as `Nat` with explicit reduction modulo 2^32
where the C code relies on 32-bit wraparound.
-/

namespace TrueTouch

/-- Number of solenoids in the system (TrueTouch::SOLENOID_COUNT = 5). -/
def SOLENOID_COUNT : Nat := 5

/-- Number of ERM motors in the system (TrueTouch::ERM_COUNT = 6). -/
def ERM_COUNT : Nat := 6

/-- util::byte_swap32, i.e. __builtin_bswap32 on a 32-bit word: the four
bytes of the word in reversed order. -/
def byte_swap32 (x : Nat) : Nat :=
  x % 256 * 2 ^ 24 + x / 2 ^ 8 % 256 * 2 ^ 16 + x / 2 ^ 16 % 256 * 2 ^ 8 + x / 2 ^ 24 % 256

/-- Little-endian reassembly of four transport bytes into a 32-bit field, as
memcpy of the packed wire struct performs it on the little-endian target
(TrueTouch::parse_bytes). -/
def le32 (b0 b1 b2 b3 : Nat) : Nat :=
  b0 % 256 + b1 % 256 * 2 ^ 8 + b2 % 256 * 2 ^ 16 + b3 % 256 * 2 ^ 24

/-- util::is_set: test bit n of a 32-bit mask, false for n > 31. -/
def is_set (mask : Nat) (n : Nat) : Bool :=
  if n > 31 then false else mask.testBit n

/-- The descending scan loop inside util::get_highest_bit: test bits
i, i-1, ..., 0 in order and return the first set position, else -1. -/
def ghb_from (mask : Nat) : Nat → Int
  | 0 => if mask.testBit 0 then 0 else -1
  | i + 1 => if mask.testBit (i + 1) then Int.ofNat (i + 1) else ghb_from mask i

/-- util::get_highest_bit: bit position of the highest set bit of a 32-bit
mask (scan from bit 31 down), or -1 if no bit is set. -/
def get_highest_bit (mask : Nat) : Int := ghb_from mask 31

/-- util::clear_highest_bit: clear the highest set bit, i.e. and the mask
with the 32-bit complement of that bit; no-op when no bit is set. -/
def clear_highest_bit (mask : Nat) : Nat :=
  match get_highest_bit mask with
  | Int.ofNat n => mask &&& (2 ^ 32 - 1 - 2 ^ n)
  | Int.negSucc _ => mask

/-- 32-bit wraparound subtraction: the value of the C expression
`millis() - _pulse_start_ms` where both operands are uint32_t. -/
def sub32 (a b : Nat) : Nat := (a % 2 ^ 32 + (2 ^ 32 - b % 2 ^ 32)) % 2 ^ 32

/-- Device state: the BLE UART receive buffer plus the TrueTouch instance
fields (_fingers_to_pulse, _pulse_dur_ms, _pulse_start_ms) and the output
levels of the bound pins, indexed by logical actuator index (the pin
binding tables _solenoid_pins and _erm_pins are injective, so levels are
tracked per logical index; digital solenoid levels, digital ERM levels and
ERM PWM duty are separate because the tables are disjoint). -/
structure TTState where
  buf : List Nat
  fingers_to_pulse : Nat
  pulse_dur_ms : Nat
  pulse_start_ms : Nat
  solenoid_out : Nat → Bool
  erm_out : Nat → Bool
  erm_pwm : Nat → Nat

/-- Observable events of one service call: physical pin writes
(digitalWrite on a solenoid pin, digitalWrite on an ERM pin, analogWrite on
an ERM pin) and handler invocations carrying the decoded frame fields. -/
inductive Ev where
  | solWrite (idx : Nat) (level : Bool)
  | ermWrite (idx : Nat) (level : Bool)
  | ermPwm (idx : Nat) (intensity : Nat)
  | cmdWrite (mask : Nat) (output : Nat)
  | cmdPulse (mask : Nat) (duration : Nat)
  | cmdErm (mask : Nat) (intensity : Nat)
  deriving DecidableEq

/-- Point update of a Bool-valued output map. -/
def updf (f : Nat → Bool) (i : Nat) (v : Bool) : Nat → Bool :=
  fun j => if j = i then v else f j

/-- Point update of a Nat-valued output map. -/
def updn (f : Nat → Nat) (i : Nat) (v : Nat) : Nat → Nat :=
  fun j => if j = i then v else f j

/-- The ascending loop of TrueTouch::handle_solenoid_write: for pin_idx in
[0, k), if bit pin_idx of the mask is set, digitalWrite the solenoid pin to
(output == OUT_HIGH). -/
def solWriteLoop (mask : Nat) (output : Nat) : Nat → (Nat → Bool) → (Nat → Bool) × List Ev
  | 0, sol => (sol, [])
  | k + 1, sol =>
    let r := solWriteLoop mask output k sol
    if is_set mask k then (updf r.1 k (output == 1), r.2 ++ [Ev.solWrite k (output == 1)])
    else r

/-- The ascending loop of TrueTouch::handle_erm_set: for pin_idx in [0, k),
if bit pin_idx of the mask is set, analogWrite the ERM pin to the intensity. -/
def ermSetLoop (mask : Nat) (intensity : Nat) : Nat → (Nat → Nat) → (Nat → Nat) × List Ev
  | 0, pwm => (pwm, [])
  | k + 1, pwm =>
    let r := ermSetLoop mask intensity k pwm
    if is_set mask k then (updn r.1 k intensity, r.2 ++ [Ev.ermPwm k intensity])
    else r

/-- TrueTouch::handle_solenoid_write: return untouched if fewer than
sizeof(SolenoidWrite) = 6 bytes are available; otherwise consume the six
frame bytes, byte-swap the bitset field, and drive every addressed solenoid
in [0, SOLENOID_COUNT) to (output == OUT_HIGH). -/
def handle_solenoid_write (s : TTState) : TTState × List Ev :=
  match s.buf with
  | _ :: b1 :: b2 :: b3 :: b4 :: b5 :: rest =>
    let mask := byte_swap32 (le32 b1 b2 b3 b4)
    let r := solWriteLoop mask b5 SOLENOID_COUNT s.solenoid_out
    ({ s with buf := rest, solenoid_out := r.1 }, Ev.cmdWrite mask b5 :: r.2)
  | _ => (s, [])

/-- TrueTouch::handle_solenoid_pulse: return untouched if fewer than
sizeof(SolenoidPulse) = 9 bytes are available; otherwise consume the nine
frame bytes, byte-swap the bitset and duration fields, store them into
_fingers_to_pulse and _pulse_dur_ms, and unless the mask is zero start the
first pulse: if the highest set bit is outside [0, ERM_COUNT) clear
_fingers_to_pulse and do nothing else, otherwise drive that ERM pin high
and record _pulse_start_ms = millis(). -/
def handle_solenoid_pulse (now : Nat) (s : TTState) : TTState × List Ev :=
  match s.buf with
  | _ :: b1 :: b2 :: b3 :: b4 :: b5 :: b6 :: b7 :: b8 :: rest =>
    let mask := byte_swap32 (le32 b1 b2 b3 b4)
    let dur := byte_swap32 (le32 b5 b6 b7 b8)
    let s1 := { s with buf := rest, fingers_to_pulse := mask, pulse_dur_ms := dur }
    if mask = 0 then (s1, [Ev.cmdPulse mask dur])
    else
      match get_highest_bit mask with
      | Int.ofNat idx =>
        if idx ≥ ERM_COUNT then ({ s1 with fingers_to_pulse := 0 }, [Ev.cmdPulse mask dur])
        else ({ s1 with erm_out := updf s1.erm_out idx true, pulse_start_ms := now },
              [Ev.cmdPulse mask dur, Ev.ermWrite idx true])
      | Int.negSucc _ => ({ s1 with fingers_to_pulse := 0 }, [Ev.cmdPulse mask dur])
  | _ => (s, [])

/-- TrueTouch::handle_erm_set: return untouched if fewer than
sizeof(ErmSet) = 6 bytes are available; otherwise consume the six frame
bytes, byte-swap the bitset field, and analogWrite the intensity to every
addressed ERM pin in [0, ERM_COUNT). -/
def handle_erm_set (s : TTState) : TTState × List Ev :=
  match s.buf with
  | _ :: b1 :: b2 :: b3 :: b4 :: b5 :: rest =>
    let mask := byte_swap32 (le32 b1 b2 b3 b4)
    let r := ermSetLoop mask b5 ERM_COUNT s.erm_pwm
    ({ s with buf := rest, erm_pwm := r.1 }, Ev.cmdErm mask b5 :: r.2)
  | _ => (s, [])

/-- The command-dispatch part of TrueTouch::service (lines after the pulse
servicing): do nothing when no data is available, otherwise peek the first
byte as the Command and route to the matching handler; an unrecognized
opcode byte falls through the switch and nothing happens. -/
def dispatch (now : Nat) (s : TTState) : TTState × List Ev :=
  match s.buf with
  | [] => (s, [])
  | b :: _ =>
    if b = 1 then handle_solenoid_write s
    else if b = 2 then handle_solenoid_pulse now s
    else if b = 3 then handle_erm_set s
    else (s, [])

/-- TrueTouch::service_gpio_pulse: no-op when no pulse is ongoing or the
32-bit elapsed time millis() - _pulse_start_ms is still below
_pulse_dur_ms; otherwise drive the ERM pin at the highest set bit low,
clear that bit, and either stop (mask drained, reset _pulse_start_ms) or
drive the ERM pin at the new highest set bit high and restart the hold at
millis().  A highest bit outside [0, ERM_COUNT) aborts by clearing
_fingers_to_pulse. -/
def service_gpio_pulse (now : Nat) (s : TTState) : TTState × List Ev :=
  if s.fingers_to_pulse = 0 then (s, [])
  else if sub32 now s.pulse_start_ms < s.pulse_dur_ms then (s, [])
  else
    match get_highest_bit s.fingers_to_pulse with
    | Int.ofNat idx =>
      if idx ≥ ERM_COUNT then ({ s with fingers_to_pulse := 0 }, [])
      else
        let s1 := { s with erm_out := updf s.erm_out idx false,
                           fingers_to_pulse := clear_highest_bit s.fingers_to_pulse }
        if s1.fingers_to_pulse = 0 then
          ({ s1 with pulse_start_ms := 0 }, [Ev.ermWrite idx false])
        else
          match get_highest_bit s1.fingers_to_pulse with
          | Int.ofNat idx2 =>
            if idx2 ≥ ERM_COUNT then ({ s1 with fingers_to_pulse := 0 }, [Ev.ermWrite idx false])
            else ({ s1 with erm_out := updf s1.erm_out idx2 true, pulse_start_ms := now },
                  [Ev.ermWrite idx false, Ev.ermWrite idx2 true])
          | Int.negSucc _ => ({ s1 with fingers_to_pulse := 0 }, [Ev.ermWrite idx false])
    | Int.negSucc _ => ({ s with fingers_to_pulse := 0 }, [])

/-- TrueTouch::service: one cooperative tick.  Always service the ongoing
pulse first, then dispatch at most one command frame. -/
def service (now : Nat) (s : TTState) : TTState × List Ev :=
  let r1 := service_gpio_pulse now s
  let r2 := dispatch now r1.1
  (r2.1, r1.2 ++ r2.2)

/-- One step of the external environment: either the transport delivers a
chunk of bytes (appended to the UART buffer), or the driver loop calls
service at millisecond reading `now`. -/
inductive Step where
  | deliver (bytes : List Nat)
  | tick (now : Nat)

/-- Apply one environment step to the device state. -/
def applyStep (s : TTState) : Step → TTState × List Ev
  | Step.deliver bs => ({ s with buf := s.buf ++ bs }, [])
  | Step.tick now => service now s

/-- Run a sequence of environment steps, accumulating the event trace. -/
def run (s : TTState) : List Step → TTState × List Ev
  | [] => (s, [])
  | st :: rest =>
    let r1 := applyStep s st
    let r2 := run r1.1 rest
    (r2.1, r1.2 ++ r2.2)

/-- All bytes delivered by a step sequence, in order. -/
def joinDeliver : List Step → List Nat
  | [] => []
  | Step.deliver bs :: r => bs ++ joinDeliver r
  | Step.tick _ :: r => joinDeliver r

/-- Wire width of a recognized command frame: sizeof(SolenoidPulse) = 9
for opcode 2, sizeof(SolenoidWrite) = sizeof(ErmSet) = 6 for opcodes 1, 3. -/
def frameWidth (op : Nat) : Nat := if op = 2 then 9 else 6

/-- Every tick in the step sequence happens while strictly fewer than `w`
bytes have been delivered in total (`acc` bytes were delivered before the
sequence starts). -/
def ticksStarved (w : Nat) : Nat → List Step → Bool
  | _, [] => true
  | acc, Step.deliver bs :: r => ticksStarved w (acc + bs.length) r
  | acc, Step.tick _ :: r => decide (acc < w) && ticksStarved w acc r

/-- Is this event a handler invocation (as opposed to a pin write)? -/
def isCmdEv : Ev → Bool
  | Ev.cmdWrite _ _ => true
  | Ev.cmdPulse _ _ => true
  | Ev.cmdErm _ _ => true
  | _ => false

/-- The handler-invocation events of a trace. -/
def cmdEvents (l : List Ev) : List Ev := l.filter isCmdEv

/-- The decoded handler invocation a complete recognized frame produces. -/
def frameCmdEv : List Nat → Ev
  | 1 :: b1 :: b2 :: b3 :: b4 :: b5 :: _ =>
    Ev.cmdWrite (byte_swap32 (le32 b1 b2 b3 b4)) b5
  | 2 :: b1 :: b2 :: b3 :: b4 :: b5 :: b6 :: b7 :: b8 :: _ =>
    Ev.cmdPulse (byte_swap32 (le32 b1 b2 b3 b4)) (byte_swap32 (le32 b5 b6 b7 b8))
  | 3 :: b1 :: b2 :: b3 :: b4 :: b5 :: _ =>
    Ev.cmdErm (byte_swap32 (le32 b1 b2 b3 b4)) b5
  | _ => Ev.cmdWrite 0 0

/-- Device state right after TrueTouch::init: empty buffer, no pulse job,
every output driven low. -/
def initState : TTState :=
  ⟨[], 0, 0, 0, fun _ => false, fun _ => false, fun _ => 0⟩

/-- Iterate clear_highest_bit k times. -/
def clearIter : Nat → Nat → Nat
  | 0, m => m
  | k + 1, m => clearIter k (clear_highest_bit m)

/-- The indices get_highest_bit reports along k clear_highest_bit steps. -/
def ghbSeq : Nat → Nat → List Int
  | 0, _ => []
  | k + 1, m => get_highest_bit m :: ghbSeq k (clear_highest_bit m)

/-- Number of set bits among bit positions 0..31. -/
def popcount32 (m : Nat) : Nat :=
  (Finset.range 32).sum fun i => if m.testBit i then 1 else 0

/-! ### Lemmas about the bit utilities (util.hpp) -/

lemma ghb_from_neg_iff (mask : Nat) :
    ∀ i, ghb_from mask i = -1 ↔ ∀ j, j ≤ i → mask.testBit j = false := by
  intro i
  induction i with
  | zero =>
    simp only [ghb_from]
    by_cases hb : mask.testBit 0
    · rw [if_pos hb]
      constructor
      · intro h; exact absurd h (by decide)
      · intro h; exact absurd (h 0 le_rfl) (by simp [hb])
    · rw [if_neg hb]
      constructor
      · intro _ j hj
        have : j = 0 := Nat.le_zero.mp hj
        subst this
        exact Bool.not_eq_true _ ▸ (by simpa using hb)
      · intro _; rfl
  | succ i ih =>
    simp only [ghb_from]
    by_cases hb : mask.testBit (i + 1)
    · rw [if_pos hb]
      constructor
      · intro h; exact absurd h (by simp only [Int.ofNat_eq_natCast]; omega)
      · intro h; exact absurd (h (i + 1) le_rfl) (by simp [hb])
    · rw [if_neg hb, ih]
      constructor
      · intro h j hj
        by_cases hji : j = i + 1
        · subst hji; simpa using hb
        · exact h j (by omega)
      · intro h j hj; exact h j (by omega)

lemma ghb_from_le (mask : Nat) :
    ∀ i h, ghb_from mask i = Int.ofNat h → h ≤ i ∧ mask.testBit h = true := by
  intro i
  induction i with
  | zero =>
    intro h he
    simp only [ghb_from] at he
    by_cases hb : mask.testBit 0
    · rw [if_pos hb] at he
      have : h = 0 := by simp only [Int.ofNat_eq_natCast] at he; omega
      subst this; exact ⟨le_rfl, hb⟩
    · rw [if_neg hb] at he
      exact absurd he (by simp only [Int.ofNat_eq_natCast]; omega)
  | succ i ih =>
    intro h he
    simp only [ghb_from] at he
    by_cases hb : mask.testBit (i + 1)
    · rw [if_pos hb] at he
      have : h = i + 1 := by simp only [Int.ofNat_eq_natCast] at he; omega
      subst this; exact ⟨le_rfl, hb⟩
    · rw [if_neg hb] at he
      obtain ⟨h1, h2⟩ := ih h he
      exact ⟨by omega, h2⟩

lemma ghb_from_max (mask : Nat) :
    ∀ i h, ghb_from mask i = Int.ofNat h →
      ∀ j, h < j → j ≤ i → mask.testBit j = false := by
  intro i
  induction i with
  | zero => intro h he j hj hj0; omega
  | succ i ih =>
    intro h he j hj hji
    simp only [ghb_from] at he
    by_cases hb : mask.testBit (i + 1)
    · rw [if_pos hb] at he
      have : h = i + 1 := by simp only [Int.ofNat_eq_natCast] at he; omega
      omega
    · rw [if_neg hb] at he
      by_cases hjtop : j = i + 1
      · subst hjtop; simpa using hb
      · exact ih h he j hj (by omega)

lemma ghb_from_values (mask : Nat) :
    ∀ i, ghb_from mask i = -1 ∨ ∃ h, ghb_from mask i = Int.ofNat h := by
  intro i
  induction i with
  | zero =>
    simp only [ghb_from]
    by_cases hb : mask.testBit 0
    · exact Or.inr ⟨0, by rw [if_pos hb]; rfl⟩
    · exact Or.inl (by rw [if_neg hb])
  | succ i ih =>
    simp only [ghb_from]
    by_cases hb : mask.testBit (i + 1)
    · exact Or.inr ⟨i + 1, by rw [if_pos hb]⟩
    · rw [if_neg hb]; exact ih

lemma testBit_high_false (m : Nat) (hm : m < 2 ^ 32) :
    ∀ j, 32 ≤ j → m.testBit j = false := by
  intro j hj
  exact Nat.testBit_lt_two_pow
    (lt_of_lt_of_le hm (Nat.pow_le_pow_right (by omega) hj))

lemma get_highest_bit_neg_iff (m : Nat) (hm : m < 2 ^ 32) :
    get_highest_bit m = -1 ↔ m = 0 := by
  constructor
  · intro h
    have hlow := (ghb_from_neg_iff m 31).mp h
    apply Nat.eq_of_testBit_eq
    intro i
    rw [Nat.zero_testBit]
    by_cases hi : i ≤ 31
    · exact hlow i hi
    · exact testBit_high_false m hm i (by omega)
  · intro h; subst h; decide

lemma ghb_spec (m : Nat) (hm : m < 2 ^ 32) (h0 : m ≠ 0) :
    ∃ h : Nat, get_highest_bit m = Int.ofNat h ∧ h ≤ 31 ∧ m.testBit h = true ∧
      ∀ j, h < j → m.testBit j = false := by
  rcases ghb_from_values m 31 with hneg | ⟨h, he⟩
  · exact absurd ((get_highest_bit_neg_iff m hm).mp hneg) h0
  · obtain ⟨h31, hbit⟩ := ghb_from_le m 31 h he
    refine ⟨h, he, h31, hbit, ?_⟩
    intro j hj
    by_cases hj31 : j ≤ 31
    · exact ghb_from_max m 31 h he j hj hj31
    · exact testBit_high_false m hm j (by omega)

lemma two_pow_compl : ∀ h, h < 32 → 2 ^ 32 - 1 - 2 ^ h = (2 ^ 32 - 1) ^^^ 2 ^ h := by
  decide

lemma clear_spec (m h : Nat) (hm : m < 2 ^ 32)
    (e : get_highest_bit m = Int.ofNat h) (h31 : h ≤ 31) :
    ∀ k, (clear_highest_bit m).testBit k = if k = h then false else m.testBit k := by
  intro k
  have hc : clear_highest_bit m = m &&& (2 ^ 32 - 1 - 2 ^ h) := by
    unfold clear_highest_bit
    rw [e]
  rw [hc, two_pow_compl h (by omega), Nat.testBit_land, Nat.testBit_xor,
    Nat.testBit_two_pow_sub_one]
  by_cases hk : k = h
  · subst hk
    have : k < 32 := by omega
    simp [Nat.testBit_two_pow_self, this]
  · rw [if_neg hk]
    rw [Nat.testBit_two_pow_of_ne (fun hh => hk hh.symm)]
    by_cases hk32 : k < 32
    · simp [hk32]
    · have : m.testBit k = false := testBit_high_false m hm k (by omega)
      simp [this, hk32]

lemma clear_lt (m : Nat) (hm : m < 2 ^ 32) (h0 : m ≠ 0) :
    clear_highest_bit m < m := by
  obtain ⟨h, he, h31, hbit, hmax⟩ := ghb_spec m hm h0
  apply Nat.lt_of_testBit h
  · rw [clear_spec m h hm he h31 h]; simp
  · exact hbit
  · intro j hj
    rw [clear_spec m h hm he h31 j, if_neg (by omega)]

lemma popcount32_zero : popcount32 0 = 0 := by
  simp [popcount32, Nat.zero_testBit]

lemma popcount32_eq_zero_iff (m : Nat) (hm : m < 2 ^ 32) :
    popcount32 m = 0 ↔ m = 0 := by
  constructor
  · intro h
    apply Nat.eq_of_testBit_eq
    intro i
    rw [Nat.zero_testBit]
    by_cases hi : i < 32
    · have := Finset.sum_eq_zero_iff.mp h i (Finset.mem_range.mpr hi)
      by_cases hb : m.testBit i
      · rw [if_pos hb] at this; omega
      · simpa using hb
    · exact testBit_high_false m hm i (by omega)
  · intro h; subst h; exact popcount32_zero

lemma popcount32_clear (m h : Nat) (hm : m < 2 ^ 32)
    (e : get_highest_bit m = Int.ofNat h) (h31 : h ≤ 31) (hbit : m.testBit h = true) :
    popcount32 m = popcount32 (clear_highest_bit m) + 1 := by
  have hmem : h ∈ Finset.range 32 := Finset.mem_range.mpr (by omega)
  unfold popcount32
  rw [← Finset.add_sum_erase _ _ hmem, ← Finset.add_sum_erase _ _ hmem]
  rw [if_pos hbit]
  rw [clear_spec m h hm e h31 h, if_pos rfl]
  have hsum : ∀ i ∈ (Finset.range 32).erase h,
      (if (clear_highest_bit m).testBit i then 1 else 0) =
        (if m.testBit i then 1 else 0 : Nat) := by
    intro i hi
    rw [clear_spec m h hm e h31 i, if_neg (Finset.ne_of_mem_erase hi)]
  rw [Finset.sum_congr rfl hsum]
  simp only [Bool.false_eq_true, if_false]
  omega

lemma clearIter_drain : ∀ p m, m < 2 ^ 32 → popcount32 m = p → clearIter p m = 0 := by
  intro p
  induction p with
  | zero =>
    intro m hm hp
    exact (popcount32_eq_zero_iff m hm).mp hp
  | succ p ih =>
    intro m hm hp
    have h0 : m ≠ 0 := by
      intro h; subst h; rw [popcount32_zero] at hp; omega
    obtain ⟨h, he, h31, hbit, _⟩ := ghb_spec m hm h0
    have hdec := popcount32_clear m h hm he h31 hbit
    have hlt := clear_lt m hm h0
    exact ih (clear_highest_bit m) (by omega) (by omega)

lemma ghbSeq_chain : ∀ p m, m < 2 ^ 32 → popcount32 m = p →
    List.Chain' (· > ·) (ghbSeq p m) := by
  intro p
  induction p with
  | zero => intro m _ _; simp [ghbSeq]
  | succ p ih =>
    intro m hm hp
    have h0 : m ≠ 0 := by
      intro h; subst h; rw [popcount32_zero] at hp; omega
    obtain ⟨h, he, h31, hbit, hmax⟩ := ghb_spec m hm h0
    have hdec := popcount32_clear m h hm he h31 hbit
    have hlt := clear_lt m hm h0
    have hclear32 : clear_highest_bit m < 2 ^ 32 := by omega
    have hpc : popcount32 (clear_highest_bit m) = p := by omega
    simp only [ghbSeq]
    rw [List.chain'_cons']
    refine ⟨?_, ih (clear_highest_bit m) hclear32 hpc⟩
    intro y hy
    cases p with
    | zero => simp [ghbSeq] at hy
    | succ p2 =>
      have hc0 : clear_highest_bit m ≠ 0 := by
        intro hz
        rw [hz, popcount32_zero] at hpc
        omega
      obtain ⟨h2, he2, h2le, hbit2, _⟩ := ghb_spec (clear_highest_bit m) hclear32 hc0
      simp only [ghbSeq, List.head?, Option.mem_def, Option.some.injEq] at hy
      subst hy
      rw [he, he2]
      have hbit2m := clear_spec m h hm he h31 h2
      rw [hbit2] at hbit2m
      by_cases h2h : h2 = h
      · rw [if_pos h2h] at hbit2m; exact absurd hbit2m.symm (by simp)
      · rw [if_neg h2h] at hbit2m
        have h1 : ¬ h < h2 := fun hc => by rw [hmax h2 hc] at hbit2m; simp at hbit2m
        have h2lt : h2 < h := by omega
        simp only [Int.ofNat_eq_natCast]
        exact_mod_cast h2lt

attribute [irreducible] popcount32

/-! ### Lemmas about the handler loops and starved handlers -/

lemma solWriteLoop_fst (mask out : Nat) :
    ∀ k sol i, (solWriteLoop mask out k sol).1 i =
      if i < k ∧ is_set mask i then out == 1 else sol i := by
  intro k
  induction k with
  | zero => intro sol i; simp [solWriteLoop]
  | succ k ih =>
    intro sol i
    simp only [solWriteLoop]
    by_cases hs : is_set mask k
    · simp only [hs, if_true, updf]
      by_cases hik : i = k
      · subst hik
        simp [hs]
      · simp only [if_neg hik]
        rw [ih]
        by_cases hset : is_set mask i
        · simp only [hset, and_true]
          split_ifs <;> first | rfl | omega
        · simp [hset]
    · simp only [Bool.not_eq_true] at hs
      simp only [hs, Bool.false_eq_true, if_false]
      rw [ih]
      by_cases hset : is_set mask i
      · simp only [hset, and_true]
        have hik : i ≠ k := by
          intro heq; subst heq; rw [hs] at hset; exact absurd hset (by simp)
        split_ifs <;> first | rfl | omega
      · simp [hset]

lemma solWriteLoop_cmdEvents (mask out : Nat) :
    ∀ k sol, cmdEvents (solWriteLoop mask out k sol).2 = [] := by
  intro k
  induction k with
  | zero => intro sol; rfl
  | succ k ih =>
    intro sol
    simp only [solWriteLoop]
    by_cases hs : is_set mask k
    · simp only [hs, if_true]
      simp only [cmdEvents, List.filter_append] at ih ⊢
      rw [ih]
      rfl
    · simp only [Bool.not_eq_true] at hs
      simp only [hs, Bool.false_eq_true, if_false]
      exact ih sol

lemma ermSetLoop_cmdEvents (mask inten : Nat) :
    ∀ k pwm, cmdEvents (ermSetLoop mask inten k pwm).2 = [] := by
  intro k
  induction k with
  | zero => intro pwm; rfl
  | succ k ih =>
    intro pwm
    simp only [ermSetLoop]
    by_cases hs : is_set mask k
    · simp only [hs, if_true]
      simp only [cmdEvents, List.filter_append] at ih ⊢
      rw [ih]
      rfl
    · simp only [Bool.not_eq_true] at hs
      simp only [hs, Bool.false_eq_true, if_false]
      exact ih pwm

lemma handle_solenoid_write_short (s : TTState) (h : s.buf.length < 6) :
    handle_solenoid_write s = (s, []) := by
  unfold handle_solenoid_write
  split
  · rename_i b0 b1 b2 b3 b4 b5 rest heq
    rw [heq] at h
    simp at h
    omega
  · rfl

lemma handle_solenoid_pulse_short (now : Nat) (s : TTState) (h : s.buf.length < 9) :
    handle_solenoid_pulse now s = (s, []) := by
  unfold handle_solenoid_pulse
  split
  · rename_i b0 b1 b2 b3 b4 b5 b6 b7 b8 rest heq
    rw [heq] at h
    simp at h
    omega
  · rfl

lemma handle_erm_set_short (s : TTState) (h : s.buf.length < 6) :
    handle_erm_set s = (s, []) := by
  unfold handle_erm_set
  split
  · rename_i b0 b1 b2 b3 b4 b5 rest heq
    rw [heq] at h
    simp at h
    omega
  · rfl

lemma service_pulse_idle (now : Nat) (s : TTState) (h : s.fingers_to_pulse = 0) :
    service_gpio_pulse now s = (s, []) := by
  unfold service_gpio_pulse
  rw [if_pos h]

lemma dispatch_empty (now : Nat) (s : TTState) (h : s.buf = []) :
    dispatch now s = (s, []) := by
  unfold dispatch
  split
  · rfl
  · rename_i b tl heq
    rw [h] at heq
    exact absurd heq (by simp)

lemma dispatch_cons (now : Nat) (s : TTState) (b : Nat) (tl : List Nat)
    (h : s.buf = b :: tl) :
    dispatch now s =
      if b = 1 then handle_solenoid_write s
      else if b = 2 then handle_solenoid_pulse now s
      else if b = 3 then handle_erm_set s
      else (s, []) := by
  unfold dispatch
  split
  · rename_i heq
    rw [h] at heq
    exact absurd heq (by simp)
  · rename_i b2 tl2 heq
    rw [h] at heq
    injection heq with e1 e2
    rw [e1]

lemma handle_solenoid_write_full (s : TTState) (b0 b1 b2 b3 b4 b5 : Nat)
    (rest : List Nat) (h : s.buf = b0 :: b1 :: b2 :: b3 :: b4 :: b5 :: rest) :
    handle_solenoid_write s =
      ({ s with buf := rest,
                solenoid_out :=
                  (solWriteLoop (byte_swap32 (le32 b1 b2 b3 b4)) b5 SOLENOID_COUNT
                    s.solenoid_out).1 },
       Ev.cmdWrite (byte_swap32 (le32 b1 b2 b3 b4)) b5 ::
         (solWriteLoop (byte_swap32 (le32 b1 b2 b3 b4)) b5 SOLENOID_COUNT
           s.solenoid_out).2) := by
  obtain ⟨buf, f1, f2, f3, f4, f5, f6⟩ := s
  dsimp only at h
  subst h
  rfl

lemma handle_solenoid_pulse_full (now : Nat) (s : TTState)
    (b0 b1 b2 b3 b4 b5 b6 b7 b8 : Nat) (rest : List Nat)
    (h : s.buf = b0 :: b1 :: b2 :: b3 :: b4 :: b5 :: b6 :: b7 :: b8 :: rest) :
    handle_solenoid_pulse now s =
      (let mask := byte_swap32 (le32 b1 b2 b3 b4)
       let dur := byte_swap32 (le32 b5 b6 b7 b8)
       let s1 := { s with buf := rest, fingers_to_pulse := mask, pulse_dur_ms := dur }
       if mask = 0 then (s1, [Ev.cmdPulse mask dur])
       else
         match get_highest_bit mask with
         | Int.ofNat idx =>
           if idx ≥ ERM_COUNT then ({ s1 with fingers_to_pulse := 0 }, [Ev.cmdPulse mask dur])
           else ({ s1 with erm_out := updf s1.erm_out idx true, pulse_start_ms := now },
                 [Ev.cmdPulse mask dur, Ev.ermWrite idx true])
         | Int.negSucc _ => ({ s1 with fingers_to_pulse := 0 }, [Ev.cmdPulse mask dur])) := by
  obtain ⟨buf, f1, f2, f3, f4, f5, f6⟩ := s
  dsimp only at h
  subst h
  rfl

lemma handle_erm_set_full (s : TTState) (b0 b1 b2 b3 b4 b5 : Nat)
    (rest : List Nat) (h : s.buf = b0 :: b1 :: b2 :: b3 :: b4 :: b5 :: rest) :
    handle_erm_set s =
      ({ s with buf := rest,
                erm_pwm :=
                  (ermSetLoop (byte_swap32 (le32 b1 b2 b3 b4)) b5 ERM_COUNT s.erm_pwm).1 },
       Ev.cmdErm (byte_swap32 (le32 b1 b2 b3 b4)) b5 ::
         (ermSetLoop (byte_swap32 (le32 b1 b2 b3 b4)) b5 ERM_COUNT s.erm_pwm).2) := by
  obtain ⟨buf, f1, f2, f3, f4, f5, f6⟩ := s
  dsimp only at h
  subst h
  rfl

/-! ### Lemmas about the environment run model -/

lemma joinDeliver_append :
    ∀ l1 l2 : List Step, joinDeliver (l1 ++ l2) = joinDeliver l1 ++ joinDeliver l2 := by
  intro l1 l2
  induction l1 with
  | nil => rfl
  | cons st rest ih =>
    cases st with
    | deliver bs => simp [joinDeliver, ih]
    | tick t => simp [joinDeliver, ih]

lemma ticksStarved_append (w : Nat) :
    ∀ (l1 l2 : List Step) (acc : Nat),
      ticksStarved w acc (l1 ++ l2) =
        (ticksStarved w acc l1 && ticksStarved w (acc + (joinDeliver l1).length) l2) := by
  intro l1
  induction l1 with
  | nil => intro l2 acc; simp [ticksStarved, joinDeliver]
  | cons st rest ih =>
    intro l2 acc
    cases st with
    | deliver bs =>
      simp only [List.cons_append, ticksStarved, joinDeliver, List.append_eq,
        List.length_append, ih]
      rw [Nat.add_assoc]
    | tick t =>
      simp only [List.cons_append, ticksStarved, joinDeliver, List.append_eq, ih,
        Bool.and_assoc]

lemma run_append (l1 l2 : List Step) :
    ∀ s, run s (l1 ++ l2) =
      ((run (run s l1).1 l2).1, (run s l1).2 ++ (run (run s l1).1 l2).2) := by
  induction l1 with
  | nil => intro s; simp [run]
  | cons st rest ih =>
    intro s
    simp only [List.cons_append, run, List.append_eq]
    rw [ih]
    simp [List.append_assoc]

lemma service_starved (t : Nat) (s : TTState) (op : Nat)
    (hidle : s.fingers_to_pulse = 0)
    (hframe : s.buf = [] ∨
      (s.buf.head? = some op ∧ (op = 1 ∨ op = 2 ∨ op = 3) ∧ s.buf.length < frameWidth op)) :
    service t s = (s, []) := by
  unfold service
  rw [service_pulse_idle t s hidle]
  have hd : dispatch t s = (s, []) := by
    rcases hframe with hemp | ⟨hop, hrec, hlen⟩
    · exact dispatch_empty t s hemp
    · rcases hbuf : s.buf with _ | ⟨b, tl⟩
      · exact dispatch_empty t s hbuf
      · rw [hbuf] at hop
        simp only [List.head?, Option.some.injEq] at hop
        subst hop
        rw [dispatch_cons t s b tl hbuf]
        rcases hrec with h1 | h2 | h3
        · subst h1
          rw [if_pos rfl]
          exact handle_solenoid_write_short s (by simpa [frameWidth] using hlen)
        · subst h2
          rw [if_neg (by omega), if_pos rfl]
          exact handle_solenoid_pulse_short t s (by simpa [frameWidth] using hlen)
        · subst h3
          rw [if_neg (by omega), if_neg (by omega), if_pos rfl]
          exact handle_erm_set_short s (by simpa [frameWidth] using hlen)
  simp [hd]

lemma run_starved (w op : Nat) (frame : List Nat)
    (hop : frame.head? = some op) (hrec : op = 1 ∨ op = 2 ∨ op = 3)
    (hw : frameWidth op = w) :
    ∀ (sched : List Step) (s : TTState) (q : List Nat),
      s.fingers_to_pulse = 0 →
      s.buf ++ joinDeliver sched ++ q = frame →
      ticksStarved w s.buf.length sched = true →
      run s sched = ({ s with buf := s.buf ++ joinDeliver sched }, []) := by
  intro sched
  induction sched with
  | nil =>
    intro s q hidle hpre hst
    simp only [run, joinDeliver, List.append_nil]
  | cons st rest ih =>
    intro s q hidle hpre hst
    cases st with
    | deliver bs =>
      simp only [run, applyStep]
      have hpre2 : ({ s with buf := s.buf ++ bs } : TTState).buf ++ joinDeliver rest ++ q
          = frame := by
        simpa [joinDeliver, List.append_assoc] using hpre
      have hst2 : ticksStarved w ({ s with buf := s.buf ++ bs } : TTState).buf.length rest
          = true := by
        simpa [ticksStarved, List.length_append] using hst
      rw [ih { s with buf := s.buf ++ bs } q hidle hpre2 hst2]
      simp [joinDeliver, List.append_assoc]
    | tick t =>
      simp only [ticksStarved, Bool.and_eq_true, decide_eq_true_eq] at hst
      obtain ⟨hlt, hst2⟩ := hst
      have hframe : s.buf = [] ∨
          (s.buf.head? = some op ∧ (op = 1 ∨ op = 2 ∨ op = 3) ∧
            s.buf.length < frameWidth op) := by
        rcases hbuf : s.buf with _ | ⟨b, tl⟩
        · exact Or.inl rfl
        · refine Or.inr ⟨?_, hrec, by rw [hw]; rw [hbuf] at hlt; exact hlt⟩
          rw [hbuf] at hpre
          rw [← hpre] at hop
          simpa using hop
      simp only [run, applyStep]
      rw [service_starved t s op hidle hframe]
      rw [ih s q hidle (by simpa [joinDeliver] using hpre) hst2]
      simp [joinDeliver]

lemma list_len5 (l : List Nat) (h : l.length = 5) :
    ∃ a b c d e, l = [a, b, c, d, e] := by
  rcases l with _ | ⟨a, _ | ⟨b, _ | ⟨c, _ | ⟨d, _ | ⟨e, _ | ⟨f, tl⟩⟩⟩⟩⟩⟩ <;>
    simp only [List.length_cons, List.length_nil] at h
  all_goals first
    | omega
    | exact ⟨a, b, c, d, e, rfl⟩

lemma list_len8 (l : List Nat) (h : l.length = 8) :
    ∃ a b c d e f g k, l = [a, b, c, d, e, f, g, k] := by
  rcases l with _ | ⟨a, _ | ⟨b, _ | ⟨c, _ | ⟨d, _ | ⟨e, _ | ⟨f, _ | ⟨g, _ | ⟨k, _ | ⟨m, tl⟩⟩⟩⟩⟩⟩⟩⟩⟩ <;>
    simp only [List.length_cons, List.length_nil] at h
  all_goals first
    | omega
    | exact ⟨a, b, c, d, e, f, g, k, rfl⟩

lemma dispatch_full_cmdEvents (now : Nat) (s : TTState) (op : Nat)
    (hop : s.buf.head? = some op) (hrec : op = 1 ∨ op = 2 ∨ op = 3)
    (hlen : s.buf.length = frameWidth op) :
    cmdEvents (dispatch now s).2 = [frameCmdEv s.buf] := by
  rcases hbuf : s.buf with _ | ⟨b, tl⟩
  · rw [hbuf] at hop; simp at hop
  · rw [hbuf] at hop
    simp only [List.head?, Option.some.injEq] at hop
    subst hop
    rw [dispatch_cons now s b tl hbuf]
    rw [hbuf] at hlen
    rcases hrec with h1 | h2 | h3
    · subst h1
      rw [if_pos rfl]
      simp [frameWidth] at hlen
      obtain ⟨c1, c2, c3, c4, c5, htl⟩ := list_len5 tl (by omega)
      subst htl
      rw [handle_solenoid_write_full s 1 c1 c2 c3 c4 c5 [] hbuf]
      have hle := solWriteLoop_cmdEvents (byte_swap32 (le32 c1 c2 c3 c4)) c5
        SOLENOID_COUNT s.solenoid_out
      simp only [cmdEvents, List.filter] at hle ⊢
      simp [isCmdEv, hle, frameCmdEv]
    · subst h2
      rw [if_neg (by omega), if_pos rfl]
      simp [frameWidth] at hlen
      obtain ⟨c1, c2, c3, c4, c5, c6, c7, c8, htl⟩ := list_len8 tl (by omega)
      subst htl
      rw [handle_solenoid_pulse_full now s 2 c1 c2 c3 c4 c5 c6 c7 c8 [] hbuf]
      simp only [frameCmdEv]
      by_cases hm : byte_swap32 (le32 c1 c2 c3 c4) = 0
      · simp [hm, cmdEvents, isCmdEv, List.filter]
      · simp only [hm, if_false]
        rcases hg : get_highest_bit (byte_swap32 (le32 c1 c2 c3 c4)) with idx | idx
        · simp only [hg]
          by_cases hi : idx ≥ ERM_COUNT
          · simp [hi, cmdEvents, isCmdEv, List.filter]
          · simp [hi, cmdEvents, isCmdEv, List.filter]
        · simp [hg, cmdEvents, isCmdEv, List.filter]
    · subst h3
      rw [if_neg (by omega), if_neg (by omega), if_pos rfl]
      simp [frameWidth] at hlen
      obtain ⟨c1, c2, c3, c4, c5, htl⟩ := list_len5 tl (by omega)
      subst htl
      rw [handle_erm_set_full s 3 c1 c2 c3 c4 c5 [] hbuf]
      have hle := ermSetLoop_cmdEvents (byte_swap32 (le32 c1 c2 c3 c4)) c5
        ERM_COUNT s.erm_pwm
      simp only [cmdEvents, List.filter] at hle ⊢
      simp [isCmdEv, hle, frameCmdEv]

lemma clear_highest_bit_zero : clear_highest_bit 0 = 0 := by
  have h : get_highest_bit 0 = -1 := (get_highest_bit_neg_iff 0 (by norm_num)).mpr rfl
  unfold clear_highest_bit
  rw [h]
  rfl

lemma service_full_cmdEvents (t : Nat) (s : TTState) (op : Nat)
    (hidle : s.fingers_to_pulse = 0)
    (hop : s.buf.head? = some op) (hrec : op = 1 ∨ op = 2 ∨ op = 3)
    (hlen : s.buf.length = frameWidth op) :
    cmdEvents (service t s).2 = [frameCmdEv s.buf] := by
  unfold service
  rw [service_pulse_idle t s hidle]
  simp only []
  rw [List.nil_append]
  exact dispatch_full_cmdEvents t s op hop hrec hlen

/-! ### The claims -/

/-- Claim C1: for every command frame with a recognized opcode, while fewer
bytes than the frame width have been delivered a service tick consumes no
bytes and produces no side effect (no pin write, no scheduler change), and
on the first tick at which all bytes are available the frame is decoded and
its handler invoked exactly once, with the same decoded result as if the
frame had arrived whole, regardless of how the bytes were fragmented across
deliveries. -/
theorem C1_fragmentation_transparency (op t : Nat) (frame : List Nat)
    (sched : List Step) (s0 : TTState)
    (hbuf : s0.buf = []) (hidle : s0.fingers_to_pulse = 0)
    (hop : frame.head? = some op) (hrec : op = 1 ∨ op = 2 ∨ op = 3)
    (hlen : frame.length = frameWidth op)
    (hjoin : joinDeliver sched = frame)
    (hstarve : ticksStarved (frameWidth op) 0 sched = true) :
    (∀ pre post, sched = pre ++ post →
      run s0 pre = ({ s0 with buf := joinDeliver pre }, []))
    ∧ run s0 (sched ++ [Step.tick t]) = run s0 [Step.deliver frame, Step.tick t]
    ∧ cmdEvents (run s0 (sched ++ [Step.tick t])).2 = [frameCmdEv frame] := by
  have hpre0 : ∀ pre post, sched = pre ++ post →
      run s0 pre = ({ s0 with buf := joinDeliver pre }, []) := by
    intro pre post hsp
    subst hsp
    rw [joinDeliver_append] at hjoin
    rw [ticksStarved_append] at hstarve
    simp only [Bool.and_eq_true] at hstarve
    have hrs := run_starved (frameWidth op) op frame hop hrec rfl pre s0
      (joinDeliver post) hidle
      (by rw [hbuf]; simpa using hjoin)
      (by rw [hbuf]; exact hstarve.1)
    rw [hrs, hbuf]
    simp
  have hfull : run s0 sched = ({ s0 with buf := frame }, []) := by
    have hrs := run_starved (frameWidth op) op frame hop hrec rfl sched s0 []
      hidle (by rw [hbuf]; simpa using hjoin)
      (by rw [hbuf]; exact hstarve)
    rw [hrs, hbuf]
    simp [hjoin]
  have h2 : run s0 (sched ++ [Step.tick t])
      = run s0 [Step.deliver frame, Step.tick t] := by
    rw [run_append, hfull]
    simp only [run, applyStep]
    rw [hbuf]
    simp
  refine ⟨hpre0, h2, ?_⟩
  rw [h2]
  simp only [run, applyStep]
  rw [hbuf]
  simp only [List.nil_append, List.append_nil]
  have hs : cmdEvents (service t { s0 with buf := frame }).2
      = [frameCmdEv ({ s0 with buf := frame } : TTState).buf] :=
    service_full_cmdEvents t { s0 with buf := frame } op hidle hop hrec hlen
  simpa using hs

/-- Witness for C1 at a concrete fragmented WRITE frame. -/
theorem C1_fragmentation_transparency_witness :
    run initState ([Step.deliver [1, 0], Step.tick 5, Step.deliver [0, 0, 5, 1]]
        ++ [Step.tick 9])
      = run initState [Step.deliver [1, 0, 0, 0, 5, 1], Step.tick 9]
    ∧ cmdEvents (run initState ([Step.deliver [1, 0], Step.tick 5,
        Step.deliver [0, 0, 5, 1]] ++ [Step.tick 9])).2
      = [frameCmdEv [1, 0, 0, 0, 5, 1]] :=
  (C1_fragmentation_transparency 1 9 [1, 0, 0, 0, 5, 1]
    [Step.deliver [1, 0], Step.tick 5, Step.deliver [0, 0, 5, 1]] initState
    rfl rfl rfl (Or.inl rfl) rfl (by decide) (by decide)).2

/-- Claim C6: for every 32-bit mask, iterating get_highest_bit and
clear_highest_bit popcount-many times drains the mask to 0, the reported
indices are strictly descending, get_highest_bit returns -1 exactly on the
zero mask, and clear_highest_bit clears exactly the reported bit (no-op on
a zero mask). -/
theorem C6_bit_drain (m : Nat) (hm : m < 2 ^ 32) :
    clearIter (popcount32 m) m = 0
    ∧ List.Chain' (· > ·) (ghbSeq (popcount32 m) m)
    ∧ (get_highest_bit m = -1 ↔ m = 0)
    ∧ (m ≠ 0 → ∀ h : Nat, get_highest_bit m = Int.ofNat h →
        m.testBit h = true ∧
          ∀ k, (clear_highest_bit m).testBit k = (m.testBit k && !(k == h)))
    ∧ clear_highest_bit 0 = 0 := by
  have hc1 : clearIter (popcount32 m) m = 0 :=
    clearIter_drain (popcount32 m) m hm (Eq.refl (popcount32 m))
  have hc2 : List.Chain' (· > ·) (ghbSeq (popcount32 m) m) :=
    ghbSeq_chain (popcount32 m) m hm (Eq.refl (popcount32 m))
  refine ⟨hc1, hc2, get_highest_bit_neg_iff m hm, ?_, clear_highest_bit_zero⟩
  intro h0 h he
  obtain ⟨h2, he2, h31, hbit, hmax⟩ := ghb_spec m hm h0
  rw [he] at he2
  have hhh : h = h2 := by simp only [Int.ofNat_eq_natCast] at he2; omega
  subst hhh
  refine ⟨hbit, ?_⟩
  intro k
  rw [clear_spec m h hm he h31 k]
  by_cases hk : k = h
  · subst hk; simp
  · simp [hk]

/-- Witness for C6 at the concrete mask 26 = bits 1, 3, 4. -/
theorem C6_bit_drain_witness :
    clearIter (popcount32 26) 26 = 0 ∧ (get_highest_bit 26 = -1 ↔ 26 = 0) :=
  ⟨(C6_bit_drain 26 (by norm_num)).1, (C6_bit_drain 26 (by norm_num)).2.2.1⟩

/-- Claim C2: on every scheduler tick with a live pulse job, nothing changes
while the 32-bit elapsed time is below the hold duration; once it reaches
the duration the actuator at the highest set bit is deactivated and its bit
cleared, and if bits remain the actuator at the new (strictly lower)
highest bit is immediately activated with the start time reset to now.
With mask 26 = bits 1, 3, 4 and duration 50 ms from an idle reset device,
actuator 4 is activated at the trigger, 4 is dropped and 3 raised at 50 ms,
3 dropped and 1 raised at 100 ms, and at 150 ms the scheduler is idle with
every output low, the three holds strictly sequential and never
overlapping. -/
theorem C2_pulse_tick (s : TTState) (now : Nat)
    (hlive : s.fingers_to_pulse ≠ 0) (hrange : s.fingers_to_pulse < 2 ^ 6) :
    (sub32 now s.pulse_start_ms < s.pulse_dur_ms → service_gpio_pulse now s = (s, []))
    ∧ (s.pulse_dur_ms ≤ sub32 now s.pulse_start_ms →
        ∃ h : Nat, get_highest_bit s.fingers_to_pulse = Int.ofNat h ∧ h < ERM_COUNT ∧
          ((clear_highest_bit s.fingers_to_pulse = 0 ∧
             service_gpio_pulse now s =
               ({ s with erm_out := updf s.erm_out h false,
                         fingers_to_pulse := clear_highest_bit s.fingers_to_pulse,
                         pulse_start_ms := 0 },
                [Ev.ermWrite h false]))
           ∨ (∃ h2 : Nat, clear_highest_bit s.fingers_to_pulse ≠ 0 ∧
               get_highest_bit (clear_highest_bit s.fingers_to_pulse) = Int.ofNat h2 ∧
               h2 < h ∧
               service_gpio_pulse now s =
                 ({ s with erm_out := updf (updf s.erm_out h false) h2 true,
                           fingers_to_pulse := clear_highest_bit s.fingers_to_pulse,
                           pulse_start_ms := now },
                  [Ev.ermWrite h false, Ev.ermWrite h2 true]))))
    ∧ (let s0 := (dispatch 0 { initState with buf := [2, 0, 0, 0, 26, 0, 0, 0, 50] }).1
       let q1 := (service_gpio_pulse 49 s0).1
       let q2 := (service_gpio_pulse 50 q1).1
       let q3 := (service_gpio_pulse 99 q2).1
       let q4 := (service_gpio_pulse 100 q3).1
       let q5 := (service_gpio_pulse 149 q4).1
       let q6 := (service_gpio_pulse 150 q5).1
       s0.fingers_to_pulse = 26 ∧ s0.pulse_dur_ms = 50 ∧
       s0.erm_out 4 = true ∧ s0.erm_out 3 = false ∧ s0.erm_out 1 = false ∧
       q1.fingers_to_pulse = 26 ∧ q1.erm_out 4 = true ∧
         q1.erm_out 3 = false ∧ q1.erm_out 1 = false ∧
       q2.fingers_to_pulse = 10 ∧ q2.pulse_start_ms = 50 ∧
         q2.erm_out 4 = false ∧ q2.erm_out 3 = true ∧ q2.erm_out 1 = false ∧
       q3.fingers_to_pulse = 10 ∧ q3.erm_out 3 = true ∧ q3.erm_out 4 = false ∧
       q4.fingers_to_pulse = 2 ∧ q4.pulse_start_ms = 100 ∧
         q4.erm_out 3 = false ∧ q4.erm_out 1 = true ∧ q4.erm_out 4 = false ∧
       q5.fingers_to_pulse = 2 ∧ q5.erm_out 1 = true ∧
       q6.fingers_to_pulse = 0 ∧ q6.pulse_start_ms = 0 ∧
         (∀ i, i < 6 → q6.erm_out i = false)) := by
  have hm32 : s.fingers_to_pulse < 2 ^ 32 := lt_of_lt_of_le hrange (by norm_num)
  refine ⟨?_, ?_, by decide⟩
  · intro hlt
    unfold service_gpio_pulse
    rw [if_neg hlive, if_pos hlt]
  · intro hge
    obtain ⟨h, he, h31, hbit, hmax⟩ := ghb_spec s.fingers_to_pulse hm32 hlive
    have hh6 : h < ERM_COUNT := by
      by_contra hc
      have : s.fingers_to_pulse < 2 ^ h := by
        calc s.fingers_to_pulse < 2 ^ 6 := hrange
        _ ≤ 2 ^ h := Nat.pow_le_pow_right (by omega) (by simp [ERM_COUNT] at hc; omega)
      rw [Nat.testBit_lt_two_pow this] at hbit
      exact absurd hbit (by simp)
    refine ⟨h, he, hh6, ?_⟩
    unfold service_gpio_pulse
    rw [if_neg hlive, if_neg (not_lt.mpr hge), he]
    simp only []
    rw [if_neg (by omega : ¬ h ≥ ERM_COUNT)]
    by_cases hz : clear_highest_bit s.fingers_to_pulse = 0
    · left
      refine ⟨hz, ?_⟩
      simp only [hz, if_true]
    · right
      have hclt : clear_highest_bit s.fingers_to_pulse < s.fingers_to_pulse :=
        clear_lt s.fingers_to_pulse hm32 hlive
      obtain ⟨h2, he2, h2le, hbit2, _⟩ :=
        ghb_spec (clear_highest_bit s.fingers_to_pulse) (by omega) hz
      have hbit2m := clear_spec s.fingers_to_pulse h hm32 he h31 h2
      rw [hbit2] at hbit2m
      have h2h : h2 ≠ h := by
        intro hc
        rw [if_pos hc] at hbit2m
        exact absurd hbit2m.symm (by simp)
      rw [if_neg h2h] at hbit2m
      have h2lt : h2 < h := by
        by_contra hc
        rw [hmax h2 (by omega)] at hbit2m
        exact absurd hbit2m.symm (by simp)
      refine ⟨h2, hz, he2, h2lt, ?_⟩
      simp only [hz, if_false]
      rw [he2]
      simp only []
      rw [if_neg (by omega : ¬ h2 ≥ ERM_COUNT)]

/-- Witness for C2 at a live job with mask 26 and duration 50, tick at 75 ms. -/
theorem C2_pulse_tick_witness :
    (sub32 75 (0 : Nat) < 50 →
      service_gpio_pulse 75 ⟨[], 26, 50, 0, fun _ => false, updf (fun _ => false) 4 true,
        fun _ => 0⟩ =
        (⟨[], 26, 50, 0, fun _ => false, updf (fun _ => false) 4 true, fun _ => 0⟩, []))
    ∧ ((50 : Nat) ≤ sub32 75 0 →
        ∃ h : Nat, get_highest_bit 26 = Int.ofNat h ∧ h < ERM_COUNT ∧
          ((clear_highest_bit 26 = 0 ∧
             service_gpio_pulse 75 ⟨[], 26, 50, 0, fun _ => false,
                 updf (fun _ => false) 4 true, fun _ => 0⟩ =
               ({ (⟨[], 26, 50, 0, fun _ => false, updf (fun _ => false) 4 true,
                    fun _ => 0⟩ : TTState) with
                   erm_out := updf (updf (fun _ => false) 4 true) h false,
                   fingers_to_pulse := clear_highest_bit 26,
                   pulse_start_ms := 0 },
                [Ev.ermWrite h false]))
           ∨ (∃ h2 : Nat, clear_highest_bit 26 ≠ 0 ∧
               get_highest_bit (clear_highest_bit 26) = Int.ofNat h2 ∧
               h2 < h ∧
               service_gpio_pulse 75 ⟨[], 26, 50, 0, fun _ => false,
                   updf (fun _ => false) 4 true, fun _ => 0⟩ =
                 ({ (⟨[], 26, 50, 0, fun _ => false, updf (fun _ => false) 4 true,
                      fun _ => 0⟩ : TTState) with
                     erm_out := updf (updf (updf (fun _ => false) 4 true) h false) h2 true,
                     fingers_to_pulse := clear_highest_bit 26,
                     pulse_start_ms := 75 },
                  [Ev.ermWrite h false, Ev.ermWrite h2 true])))) :=
  ⟨(C2_pulse_tick ⟨[], 26, 50, 0, fun _ => false, updf (fun _ => false) 4 true,
      fun _ => 0⟩ 75 (by decide) (by decide)).1,
   (C2_pulse_tick ⟨[], 26, 50, 0, fun _ => false, updf (fun _ => false) 4 true,
      fun _ => 0⟩ 75 (by decide) (by decide)).2.1⟩

/-- Claim C3: a pulse command whose decoded nonzero mask has its highest set
bit outside the valid actuator-family range aborts the trigger as an
invalid-input error: _fingers_to_pulse is cleared to 0 and no actuator is
activated (no pin-write event, all output levels unchanged). -/
theorem C3_pulse_invalid_range (s : TTState) (now : Nat)
    (b1 b2 b3 b4 d1 d2 d3 d4 : Nat) (rest : List Nat)
    (hbuf : s.buf = 2 :: b1 :: b2 :: b3 :: b4 :: d1 :: d2 :: d3 :: d4 :: rest)
    (hmask : byte_swap32 (le32 b1 b2 b3 b4) ≠ 0)
    (hhigh : Int.ofNat ERM_COUNT ≤ get_highest_bit (byte_swap32 (le32 b1 b2 b3 b4))) :
    dispatch now s =
      ({ s with buf := rest, fingers_to_pulse := 0,
                pulse_dur_ms := byte_swap32 (le32 d1 d2 d3 d4) },
       [Ev.cmdPulse (byte_swap32 (le32 b1 b2 b3 b4)) (byte_swap32 (le32 d1 d2 d3 d4))]) := by
  rw [dispatch_cons now s 2 _ hbuf, if_neg (by omega), if_pos rfl,
    handle_solenoid_pulse_full now s 2 b1 b2 b3 b4 d1 d2 d3 d4 rest hbuf]
  simp only []
  rw [if_neg hmask]
  rcases hg : get_highest_bit (byte_swap32 (le32 b1 b2 b3 b4)) with idx | idx
  · rw [hg] at hhigh
    simp only [Int.ofNat_eq_natCast] at hhigh
    have h6 : ERM_COUNT ≤ idx := by exact_mod_cast hhigh
    simp only []
    rw [if_pos h6]
  · exfalso
    rw [hg, Int.negSucc_eq] at hhigh
    simp only [Int.ofNat_eq_natCast, ERM_COUNT] at hhigh
    omega

/-- Witness for C3: pulse frame with mask 64 (highest bit 6, one past the
valid ERM range). -/
theorem C3_pulse_invalid_range_witness :
    dispatch 3 ⟨[2, 0, 0, 0, 64, 0, 0, 0, 9], 0, 0, 0,
        fun _ => false, fun _ => false, fun _ => 0⟩ =
      ({ (⟨[2, 0, 0, 0, 64, 0, 0, 0, 9], 0, 0, 0,
          fun _ => false, fun _ => false, fun _ => 0⟩ : TTState) with
          buf := ([] : List Nat), fingers_to_pulse := 0,
          pulse_dur_ms := byte_swap32 (le32 0 0 0 9) },
       [Ev.cmdPulse (byte_swap32 (le32 0 0 0 64)) (byte_swap32 (le32 0 0 0 9))]) :=
  C3_pulse_invalid_range ⟨[2, 0, 0, 0, 64, 0, 0, 0, 9], 0, 0, 0,
      fun _ => false, fun _ => false, fun _ => 0⟩ 3 0 0 0 64 0 0 0 9 []
    rfl (by decide) (by decide)

/-- Claim C4 counterexample: a pulse command with decoded mask 0, received
while a job is in flight (remaining mask 4, stored duration 7), does modify
scheduler fields, contradicting the claim that no scheduler field is
modified: _pulse_dur_ms becomes the decoded duration 99 and
_fingers_to_pulse is overwritten to 0. -/
theorem C4_counterexample :
    ¬ ((dispatch 0 ⟨[2, 0, 0, 0, 0, 0, 0, 0, 99], 4, 7, 5,
          fun _ => false, fun _ => false, fun _ => 0⟩).1.pulse_dur_ms = 7
       ∧ (dispatch 0 ⟨[2, 0, 0, 0, 0, 0, 0, 0, 99], 4, 7, 5,
          fun _ => false, fun _ => false, fun _ => 0⟩).1.fingers_to_pulse = 4) := by
  decide

/-- Claim C4 amended: a pulse command with decoded mask 0 performs no
actuator transition (no pin-write event, all output levels and
pulse_start_ms unchanged) and leaves the scheduler idle (remaining mask 0);
however it does overwrite the scheduler fields _fingers_to_pulse (with 0)
and _pulse_dur_ms (with the decoded duration), so an in-flight job is
aborted and the stored duration changes. -/
theorem C4_zero_mask_amended (s : TTState) (now : Nat)
    (b1 b2 b3 b4 d1 d2 d3 d4 : Nat) (rest : List Nat)
    (hbuf : s.buf = 2 :: b1 :: b2 :: b3 :: b4 :: d1 :: d2 :: d3 :: d4 :: rest)
    (hmask : byte_swap32 (le32 b1 b2 b3 b4) = 0) :
    dispatch now s =
      ({ s with buf := rest, fingers_to_pulse := 0,
                pulse_dur_ms := byte_swap32 (le32 d1 d2 d3 d4) },
       [Ev.cmdPulse 0 (byte_swap32 (le32 d1 d2 d3 d4))]) := by
  rw [dispatch_cons now s 2 _ hbuf, if_neg (by omega), if_pos rfl,
    handle_solenoid_pulse_full now s 2 b1 b2 b3 b4 d1 d2 d3 d4 rest hbuf]
  simp [hmask]

/-- Witness for the amended C4: zero-mask pulse frame with duration byte 99
arriving while mask 4 is in flight. -/
theorem C4_zero_mask_amended_witness :
    dispatch 0 ⟨[2, 0, 0, 0, 0, 0, 0, 0, 99], 4, 7, 5,
        fun _ => false, fun _ => false, fun _ => 0⟩ =
      ({ (⟨[2, 0, 0, 0, 0, 0, 0, 0, 99], 4, 7, 5,
          fun _ => false, fun _ => false, fun _ => 0⟩ : TTState) with
          buf := ([] : List Nat), fingers_to_pulse := 0,
          pulse_dur_ms := byte_swap32 (le32 0 0 0 99) },
       [Ev.cmdPulse 0 (byte_swap32 (le32 0 0 0 99))]) :=
  C4_zero_mask_amended ⟨[2, 0, 0, 0, 0, 0, 0, 0, 99], 4, 7, 5,
      fun _ => false, fun _ => false, fun _ => 0⟩ 0 0 0 0 0 0 0 0 99 []
    rfl (by decide)

/-- Claim C5: a new pulse command with a nonzero valid mask received while a
job is in flight replaces it: the scheduler fields afterwards hold exactly
the new mask, duration and start time (the old remaining bits are gone, so
they are never serviced afterwards), and the next activation performed is
the highest set bit of the new mask; at most one job is ever live. -/
theorem C5_pulse_replacement (s : TTState) (now h : Nat)
    (b1 b2 b3 b4 d1 d2 d3 d4 : Nat) (rest : List Nat)
    (_hflight : s.fingers_to_pulse ≠ 0)
    (hbuf : s.buf = 2 :: b1 :: b2 :: b3 :: b4 :: d1 :: d2 :: d3 :: d4 :: rest)
    (hmask : byte_swap32 (le32 b1 b2 b3 b4) ≠ 0)
    (hh : get_highest_bit (byte_swap32 (le32 b1 b2 b3 b4)) = Int.ofNat h)
    (hh6 : h < ERM_COUNT) :
    dispatch now s =
      ({ s with buf := rest,
                fingers_to_pulse := byte_swap32 (le32 b1 b2 b3 b4),
                pulse_dur_ms := byte_swap32 (le32 d1 d2 d3 d4),
                pulse_start_ms := now,
                erm_out := updf s.erm_out h true },
       [Ev.cmdPulse (byte_swap32 (le32 b1 b2 b3 b4)) (byte_swap32 (le32 d1 d2 d3 d4)),
        Ev.ermWrite h true]) := by
  rw [dispatch_cons now s 2 _ hbuf, if_neg (by omega), if_pos rfl,
    handle_solenoid_pulse_full now s 2 b1 b2 b3 b4 d1 d2 d3 d4 rest hbuf]
  simp only []
  rw [if_neg hmask, hh]
  simp only []
  rw [if_neg (by omega)]

/-- Witness for C5: job with mask 4 in flight replaced by mask 34
(bits 1 and 5), duration bytes decoding to 7. -/
theorem C5_pulse_replacement_witness :
    dispatch 11 ⟨[2, 0, 0, 0, 34, 0, 0, 0, 7], 4, 50, 2,
        fun _ => false, fun _ => false, fun _ => 0⟩ =
      ({ (⟨[2, 0, 0, 0, 34, 0, 0, 0, 7], 4, 50, 2,
          fun _ => false, fun _ => false, fun _ => 0⟩ : TTState) with
          buf := ([] : List Nat),
          fingers_to_pulse := byte_swap32 (le32 0 0 0 34),
          pulse_dur_ms := byte_swap32 (le32 0 0 0 7),
          pulse_start_ms := 11,
          erm_out := updf (fun _ => false) 5 true },
       [Ev.cmdPulse (byte_swap32 (le32 0 0 0 34)) (byte_swap32 (le32 0 0 0 7)),
        Ev.ermWrite 5 true]) :=
  C5_pulse_replacement ⟨[2, 0, 0, 0, 34, 0, 0, 0, 7], 4, 50, 2,
      fun _ => false, fun _ => false, fun _ => 0⟩ 11 5 0 0 0 34 0 0 0 7 []
    (by decide) rfl (by decide) (by decide) (by decide)

/-- Claim C7: a solenoid WRITE command drives exactly the actuators whose
bit is set in the decoded mask and whose index is within the valid solenoid
range 0..4 to the commanded level, leaves every other output unchanged, and
silently ignores set bits outside the range. -/
theorem C7_solenoid_write (s : TTState) (now : Nat) (b1 b2 b3 b4 lv : Nat)
    (rest : List Nat)
    (hbuf : s.buf = 1 :: b1 :: b2 :: b3 :: b4 :: lv :: rest) :
    (∀ i, (dispatch now s).1.solenoid_out i =
      if i < SOLENOID_COUNT ∧ is_set (byte_swap32 (le32 b1 b2 b3 b4)) i = true
      then lv == 1 else s.solenoid_out i)
    ∧ (dispatch now s).1.erm_out = s.erm_out
    ∧ (dispatch now s).1.erm_pwm = s.erm_pwm
    ∧ (dispatch now s).1.fingers_to_pulse = s.fingers_to_pulse
    ∧ (dispatch now s).1.buf = rest := by
  rw [dispatch_cons now s 1 _ hbuf, if_pos rfl,
    handle_solenoid_write_full s 1 b1 b2 b3 b4 lv rest hbuf]
  refine ⟨?_, rfl, rfl, rfl, rfl⟩
  intro i
  exact solWriteLoop_fst (byte_swap32 (le32 b1 b2 b3 b4)) lv SOLENOID_COUNT
    s.solenoid_out i

/-- Witness for C7: WRITE with mask 5 (bits 0 and 2) and level byte 1. -/
theorem C7_solenoid_write_witness :
    (∀ i, (dispatch 0 ⟨[1, 0, 0, 0, 5, 1], 0, 0, 0,
        fun _ => false, fun _ => false, fun _ => 0⟩).1.solenoid_out i =
      if i < SOLENOID_COUNT ∧ is_set (byte_swap32 (le32 0 0 0 5)) i = true
      then (1 : Nat) == 1 else false)
    ∧ (dispatch 0 ⟨[1, 0, 0, 0, 5, 1], 0, 0, 0,
        fun _ => false, fun _ => false, fun _ => 0⟩).1.buf = [] := by
  have hc := C7_solenoid_write ⟨[1, 0, 0, 0, 5, 1], 0, 0, 0,
      fun _ => false, fun _ => false, fun _ => 0⟩ 0 0 0 0 5 1 [] rfl
  exact ⟨hc.1, hc.2.2.2.2⟩

lemma service_pulse_buf (now : Nat) (s : TTState) :
    (service_gpio_pulse now s).1.buf = s.buf := by
  unfold service_gpio_pulse
  simp only []
  repeat' split
  all_goals rfl

lemma service_pulse_solenoid (now : Nat) (s : TTState) :
    (service_gpio_pulse now s).1.solenoid_out = s.solenoid_out := by
  unfold service_gpio_pulse
  simp only []
  repeat' split
  all_goals rfl

lemma service_pulse_pwm (now : Nat) (s : TTState) :
    (service_gpio_pulse now s).1.erm_pwm = s.erm_pwm := by
  unfold service_gpio_pulse
  simp only []
  repeat' split
  all_goals rfl

lemma service_pulse_events (now : Nat) (s : TTState) :
    ∀ e ∈ (service_gpio_pulse now s).2, ∃ i v, e = Ev.ermWrite i v := by
  unfold service_gpio_pulse
  simp only []
  repeat' split
  all_goals intro e he
  all_goals simp only [List.mem_cons, List.not_mem_nil, or_false] at he
  all_goals first
    | exact he.elim
    | exact ⟨_, _, he⟩
    | (rcases he with he | he
       · exact ⟨_, _, he⟩
       · exact ⟨_, _, he⟩)

/-- Claim C8: a service tick whose leading buffered byte is not a
recognized opcode takes no dispatch action: no byte is consumed, no handler
invoked, no state changed, and the unrecognized byte stays at the head of
the stream across any number of subsequent ticks. -/
theorem C8_unknown_opcode (s : TTState) (b : Nat) (tl : List Nat)
    (hbuf : s.buf = b :: tl) (hb1 : b ≠ 1) (hb2 : b ≠ 2) (hb3 : b ≠ 3) :
    (∀ now, dispatch now s = (s, []))
    ∧ (∀ ts : List Nat, (run s (ts.map Step.tick)).1.buf = b :: tl) := by
  constructor
  · intro now
    rw [dispatch_cons now s b tl hbuf, if_neg hb1, if_neg hb2, if_neg hb3]
  · have haux : ∀ (ts : List Nat) (s2 : TTState), s2.buf = b :: tl →
        (run s2 (ts.map Step.tick)).1.buf = b :: tl := by
      intro ts
      induction ts with
      | nil => intro s2 h2; simpa [run] using h2
      | cons t ts ih =>
        intro s2 h2
        simp only [List.map_cons, run, applyStep]
        apply ih
        have hpb : (service_gpio_pulse t s2).1.buf = s2.buf := service_pulse_buf t s2
        have hd2 : dispatch t (service_gpio_pulse t s2).1
            = ((service_gpio_pulse t s2).1, []) := by
          rw [dispatch_cons t _ b tl (by rw [hpb, h2]), if_neg hb1, if_neg hb2, if_neg hb3]
        unfold service
        simp only [hd2]
        rw [hpb, h2]
    intro ts
    exact haux ts s hbuf

/-- Witness for C8 with unrecognized opcode byte 7. -/
theorem C8_unknown_opcode_witness :
    (∀ now, dispatch now ⟨[7, 1, 2], 0, 0, 0,
        fun _ => false, fun _ => false, fun _ => 0⟩ =
      (⟨[7, 1, 2], 0, 0, 0, fun _ => false, fun _ => false, fun _ => 0⟩, []))
    ∧ (∀ ts : List Nat,
        (run ⟨[7, 1, 2], 0, 0, 0, fun _ => false, fun _ => false, fun _ => 0⟩
          (ts.map Step.tick)).1.buf = 7 :: [1, 2]) :=
  C8_unknown_opcode ⟨[7, 1, 2], 0, 0, 0, fun _ => false, fun _ => false, fun _ => 0⟩
    7 [1, 2] rfl (by decide) (by decide) (by decide)

/-- Claim C9: the pulse scheduler operates on the ERM pin table and range:
every tick leaves the solenoid outputs, PWM duties and buffer untouched and
emits only ERM digital writes; and a pulse command whose mask is 2^5
(highest bit 5 = ERM_COUNT - 1) is accepted as valid, activating ERM
actuator 5 and leaving every solenoid output unchanged. -/
theorem C9_pulse_uses_erm (now : Nat) (s s2 : TTState)
    (d1 d2 d3 d4 : Nat) (rest : List Nat)
    (hbuf : s2.buf = 2 :: 0 :: 0 :: 0 :: 32 :: d1 :: d2 :: d3 :: d4 :: rest) :
    ((service_gpio_pulse now s).1.solenoid_out = s.solenoid_out
      ∧ (service_gpio_pulse now s).1.erm_pwm = s.erm_pwm
      ∧ (service_gpio_pulse now s).1.buf = s.buf
      ∧ ∀ e ∈ (service_gpio_pulse now s).2, ∃ i v, e = Ev.ermWrite i v)
    ∧ ((dispatch now s2).1.fingers_to_pulse = 32
      ∧ (dispatch now s2).1.erm_out 5 = true
      ∧ (dispatch now s2).1.solenoid_out = s2.solenoid_out
      ∧ Ev.ermWrite 5 true ∈ (dispatch now s2).2) := by
  refine ⟨⟨service_pulse_solenoid now s, service_pulse_pwm now s,
    service_pulse_buf now s, service_pulse_events now s⟩, ?_⟩
  rw [dispatch_cons now s2 2 _ hbuf, if_neg (by omega), if_pos rfl,
    handle_solenoid_pulse_full now s2 2 0 0 0 32 d1 d2 d3 d4 rest hbuf]
  have h32 : byte_swap32 (le32 0 0 0 32) = 32 := by decide
  have hg : get_highest_bit 32 = Int.ofNat 5 := by decide
  simp only [h32, hg]
  rw [if_neg (by decide), if_neg (by simp [ERM_COUNT])]
  refine ⟨rfl, ?_, rfl, by simp⟩
  simp [updf]

/-- Witness for C9 at a concrete state and a concrete mask-32 pulse frame. -/
theorem C9_pulse_uses_erm_witness :
    ((service_gpio_pulse 8 ⟨[], 4, 3, 1, fun _ => false, updf (fun _ => false) 2 true,
        fun _ => 0⟩).1.solenoid_out = (fun _ => false)
      ∧ (service_gpio_pulse 8 ⟨[], 4, 3, 1, fun _ => false, updf (fun _ => false) 2 true,
          fun _ => 0⟩).1.erm_pwm = (fun _ => 0)
      ∧ (service_gpio_pulse 8 ⟨[], 4, 3, 1, fun _ => false, updf (fun _ => false) 2 true,
          fun _ => 0⟩).1.buf = []
      ∧ ∀ e ∈ (service_gpio_pulse 8 ⟨[], 4, 3, 1, fun _ => false,
          updf (fun _ => false) 2 true, fun _ => 0⟩).2, ∃ i v, e = Ev.ermWrite i v)
    ∧ ((dispatch 8 ⟨[2, 0, 0, 0, 32, 0, 0, 0, 5], 0, 0, 0, fun _ => false,
          fun _ => false, fun _ => 0⟩).1.fingers_to_pulse = 32
      ∧ (dispatch 8 ⟨[2, 0, 0, 0, 32, 0, 0, 0, 5], 0, 0, 0, fun _ => false,
          fun _ => false, fun _ => 0⟩).1.erm_out 5 = true
      ∧ (dispatch 8 ⟨[2, 0, 0, 0, 32, 0, 0, 0, 5], 0, 0, 0, fun _ => false,
          fun _ => false, fun _ => 0⟩).1.solenoid_out = (fun _ => false)
      ∧ Ev.ermWrite 5 true ∈ (dispatch 8 ⟨[2, 0, 0, 0, 32, 0, 0, 0, 5], 0, 0, 0,
          fun _ => false, fun _ => false, fun _ => 0⟩).2) :=
  C9_pulse_uses_erm 8 ⟨[], 4, 3, 1, fun _ => false, updf (fun _ => false) 2 true,
      fun _ => 0⟩
    ⟨[2, 0, 0, 0, 32, 0, 0, 0, 5], 0, 0, 0, fun _ => false, fun _ => false, fun _ => 0⟩
    0 0 0 5 [] rfl

/-- Claim C10: the pulse hold check computes the elapsed time as the 32-bit
modular difference of the millisecond readings, so whenever the true
separation of the two clock instants is below 2^32 ms the comparison with
the duration is exact even if the counter overflowed in between; in
particular a tick strictly inside the hold window is a no-op. -/
theorem C10_wraparound (t0 t1 d : Nat) (s : TTState)
    (hle : t0 ≤ t1) (hsep : t1 - t0 < 2 ^ 32) :
    sub32 (t1 % 2 ^ 32) (t0 % 2 ^ 32) = t1 - t0
    ∧ ((sub32 (t1 % 2 ^ 32) (t0 % 2 ^ 32) < d) ↔ (t1 - t0 < d))
    ∧ (s.fingers_to_pulse ≠ 0 → s.pulse_start_ms = t0 % 2 ^ 32 →
        t1 - t0 < s.pulse_dur_ms →
        service_gpio_pulse (t1 % 2 ^ 32) s = (s, [])) := by
  have heq : sub32 (t1 % 2 ^ 32) (t0 % 2 ^ 32) = t1 - t0 := by
    unfold sub32
    omega
  refine ⟨heq, by rw [heq], ?_⟩
  intro hf hst hd
  unfold service_gpio_pulse
  rw [if_neg hf, hst, if_pos (by rw [heq]; exact hd)]

/-- Witness for C10 across a counter overflow: start reading 2^32 - 6,
tick reading 5, true separation 11 ms, duration 20 ms. -/
theorem C10_wraparound_witness :
    sub32 ((2 ^ 32 + 5) % 2 ^ 32) ((2 ^ 32 - 6) % 2 ^ 32) = (2 ^ 32 + 5) - (2 ^ 32 - 6)
    ∧ ((sub32 ((2 ^ 32 + 5) % 2 ^ 32) ((2 ^ 32 - 6) % 2 ^ 32) < 20)
        ↔ ((2 ^ 32 + 5) - (2 ^ 32 - 6) < 20))
    ∧ ((⟨[], 1, 20, (2 ^ 32 - 6) % 2 ^ 32, fun _ => false, fun _ => false,
          fun _ => 0⟩ : TTState).fingers_to_pulse ≠ 0 →
        (⟨[], 1, 20, (2 ^ 32 - 6) % 2 ^ 32, fun _ => false, fun _ => false,
          fun _ => 0⟩ : TTState).pulse_start_ms = (2 ^ 32 - 6) % 2 ^ 32 →
        (2 ^ 32 + 5) - (2 ^ 32 - 6) <
          (⟨[], 1, 20, (2 ^ 32 - 6) % 2 ^ 32, fun _ => false, fun _ => false,
            fun _ => 0⟩ : TTState).pulse_dur_ms →
        service_gpio_pulse ((2 ^ 32 + 5) % 2 ^ 32)
            ⟨[], 1, 20, (2 ^ 32 - 6) % 2 ^ 32, fun _ => false, fun _ => false,
              fun _ => 0⟩ =
          (⟨[], 1, 20, (2 ^ 32 - 6) % 2 ^ 32, fun _ => false, fun _ => false,
            fun _ => 0⟩, [])) :=
  C10_wraparound (2 ^ 32 - 6) (2 ^ 32 + 5) 20
    ⟨[], 1, 20, (2 ^ 32 - 6) % 2 ^ 32, fun _ => false, fun _ => false, fun _ => 0⟩
    (by norm_num) (by norm_num)

end TrueTouch
